import Mathlib

/-!
Shallow embedding of the channel-multiplexing engine of
`SerialMultiplexer/src/serial-mux.cpp`, together with theorems checking the
specification's claims about it.

The embedding models:
* `struct ptyChan` and the registry `sVirtualPorts`
  (`std::map<uint8_t, ptyChan>`, modelled as an association list in key order,
  with `operator[]` insert-on-miss and `emplace` no-overwrite semantics);
* the wire codec implicit in `writeThread` (encode) and `readThread` (decode);
* one iteration of the `readThread` loop (ingress) and its repetition;
* one polling pass of the `writeThread` loop (egress);
* the `-c` option-processing loop of `main`.
Byte streams are lists of naturals; file descriptors are integers.
-/

namespace SerialMux

/-- Constant `cMaxDataSize` from `serial-mux.cpp`: maximum number of data
bytes per packet. -/
def cMaxDataSize : Nat := 1000

/-- Constant `cMaxChannelId` from `serial-mux.cpp`. -/
def cMaxChannelId : Nat := 255

/-- Model of `struct ptyChan`: channel id, pseudo-tty file descriptor,
user-specified link path, OS-assigned pty name. -/
structure ptyChan where
  channelId : Nat
  pty : Int
  linkPath : String
  ptyName : String
deriving Repr, DecidableEq

/-- Value-initialized `ptyChan`, as produced by `std::map::operator[]` on a
missing key: all scalar fields zero, strings empty.  In particular its `pty`
file descriptor is `0`. -/
def defaultChan : ptyChan := ⟨0, 0, "", ""⟩

/-- The registry `sVirtualPorts` (`std::map<uint8_t, ptyChan>`), modelled as
the association list of its entries in ascending key order. -/
abbrev RegMap := List (Nat × ptyChan)

/-- Ordered-map lookup, the search of `std::map`: keys to the left of the
search path are smaller, so a key below the current head is absent. -/
def mapFind : RegMap → Nat → Option ptyChan
  | [], _ => none
  | (k', v) :: rest, k =>
    if k < k' then none else if k = k' then some v else mapFind rest k

/-- Model of `std::map::operator[]` (line 429 of `serial-mux.cpp`): returns
the mapped value for the key, inserting a value-initialized entry when the
key is absent, together with the resulting map. -/
def mapIndex (k : Nat) : RegMap → ptyChan × RegMap
  | [] => (defaultChan, [(k, defaultChan)])
  | (k', v) :: rest =>
    if k < k' then (defaultChan, (k, defaultChan) :: (k', v) :: rest)
    else if k = k' then (v, (k', v) :: rest)
    else
      let r := mapIndex k rest
      (r.1, (k', v) :: r.2)

/-- Model of `std::map::emplace` (line 201 of `serial-mux.cpp`): inserts the
pair only when the key is absent; an existing entry is left untouched and the
call reports nothing. -/
def mapEmplace (k : Nat) (v : ptyChan) : RegMap → RegMap
  | [] => [(k, v)]
  | (k', v') :: rest =>
    if k < k' then (k, v) :: (k', v') :: rest
    else if k = k' then (k', v') :: rest
    else (k', v') :: mapEmplace k v rest

/-- Keys of the registry, in iteration order. -/
def mapKeys (m : RegMap) : List Nat := m.map Prod.fst

/-- Frame encoding as performed by `writeThread` (lines 471-478): the channel
id byte, the two length bytes most-significant first, then the payload. -/
def encodeFrame (cid : Nat) (payload : List Nat) : List Nat :=
  cid :: ((payload.length >>> 8) &&& 255) :: (payload.length &&& 255) :: payload

/-- Frame decoding as performed by `readThread` (lines 413-427 and the
payload loop): first byte is the channel id, the next two form the length
most-significant first, then that many payload bytes follow.  Returns
`(cid, payload, remaining stream)`, or `none` when the stream holds fewer
bytes than a complete frame. -/
def decodeFrame : List Nat → Option (Nat × List Nat × List Nat)
  | cid :: b1 :: b2 :: rest =>
    let nbytes := ((b1 &&& 255) <<< 8) + (b2 &&& 255)
    if nbytes ≤ rest.length then some (cid, rest.take nbytes, rest.drop nbytes)
    else none
  | _ => none

/-- One iteration of the `readThread` loop (lines 406-440) on a stream of
arrived bytes, with the shutdown flag clear: parse the header, resolve the
channel through `sVirtualPorts[cid]` (inserting a value-initialized entry on
a miss), then transfer exactly `nbytes` bytes from the stream to the
resolved `pty` descriptor.  The produced writes are `(frame cid,
destination fd, byte)` triples in order.  Returns `none` when the stream
does not yet hold a complete frame. -/
def readFrameStep (reg : RegMap) (stream : List Nat) :
    Option (RegMap × List Nat × List (Nat × Int × Nat)) :=
  match stream with
  | cid :: b1 :: b2 :: rest =>
    let nbytes := ((b1 &&& 255) <<< 8) + (b2 &&& 255)
    if nbytes ≤ rest.length then
      let r := mapIndex cid reg
      some (r.2, rest.drop nbytes, (rest.take nbytes).map fun b => (cid, r.1.pty, b))
    else none
  | _ => none

/-- Repeated iterations of the `readThread` loop: process up to `fuel`
frames, accumulating the writes issued to the endpoint descriptors. -/
def readRun : Nat → RegMap → List Nat → RegMap × List (Nat × Int × Nat)
  | 0, reg, _ => (reg, [])
  | fuel + 1, reg, stream =>
    match readFrameStep reg stream with
    | none => (reg, [])
    | some (reg', rest, ws) =>
      let r := readRun fuel reg' rest
      (r.1, ws ++ r.2)

/-- Observable output of an egress polling pass: the bytes put on the
physical transport, the frames emitted as `(cid, declared length, payload
bytes actually written)`, and the short-write errors logged as
`(cid, requested, returned)`. -/
structure EgressOut where
  wire : List Nat
  frames : List (Nat × Nat × List Nat)
  errors : List (Nat × Nat × Nat)
deriving Repr, DecidableEq

/-- Concatenation of egress outputs, in order. -/
def EgressOut.append (a b : EgressOut) : EgressOut :=
  ⟨a.wire ++ b.wire, a.frames ++ b.frames, a.errors ++ b.errors⟩

/-- Handling of one endpoint inside a `writeThread` pass (lines 459-490):
read up to `cMaxDataSize` bytes from the endpoint's pty (`pend` gives the
bytes pending on each descriptor); fewer than one byte means skip to the
next endpoint; otherwise write the channel id, the two length bytes
most-significant first, and then the payload, of which the physical write
accepts `accept cid` bytes; a payload write returning other than `nbytes`
is logged as an error and not retried. -/
def egressStep (accept : Nat → Nat) (pend : Int → List Nat)
    (cid : Nat) (chan : ptyChan) : EgressOut :=
  let tmp := min (pend chan.pty).length cMaxDataSize
  if tmp < 1 then ⟨[], [], []⟩
  else
    let nbytes := tmp
    let payload := (pend chan.pty).take nbytes
    let acc := min (accept cid) nbytes
    { wire := cid :: ((nbytes >>> 8) &&& 255) :: (nbytes &&& 255) :: payload.take acc
      frames := [(cid, nbytes, payload.take acc)]
      errors := if acc ≠ nbytes then [(cid, nbytes, acc)] else [] }

/-- One full polling pass of the `writeThread` loop: visit every registry
entry in iteration order and handle each endpoint. -/
def egressPass (accept : Nat → Nat) (pend : Int → List Nat) : RegMap → EgressOut
  | [] => ⟨[], [], []⟩
  | (cid, chan) :: rest =>
    (egressStep accept pend cid chan).append (egressPass accept pend rest)

/-- Model of the `-c` option-processing loop of `main` (lines 173-210): each
spec is the `atoi` value of the option argument together with the link path
after the colon (empty when none).  An id above `cMaxChannelId` or below 0
makes the process exit with `EXIT_FAILURE` (`none`); otherwise the channel
(with `pty` initialized to `-1` and an empty pty name) is `emplace`d into
the registry, so a duplicate id is silently ignored. -/
def parseChans : List (Int × String) → RegMap → Option RegMap
  | [], m => some m
  | (n, link) :: rest, m =>
    if n > (cMaxChannelId : Int) ∨ n < 0 then none
    else parseChans rest (mapEmplace n.toNat ⟨n.toNat, -1, link, ""⟩ m)

/-- Startup channel configuration: the option loop followed by the
`size() < 1` check of `main` (line 212); `none` means the process exits
with `EXIT_FAILURE` before any engine thread starts. -/
def setupChans (specs : List (Int × String)) : Option RegMap :=
  match parseChans specs [] with
  | none => none
  | some m => if m.length < 1 then none else some m

/-! Helper lemmas about the map model and the codec arithmetic. -/

/-- Masking with `0xFF` is reduction modulo 256. -/
theorem land255_eq_mod (x : Nat) : x &&& 255 = x % 256 :=
  Nat.and_pow_two_sub_one_eq_mod x 8

/-- Indexing with a present key returns its value and leaves the map
unchanged. -/
theorem mapIndex_found : ∀ {reg : RegMap} {k : Nat} {c : ptyChan},
    mapFind reg k = some c → mapIndex k reg = (c, reg)
  | [], k, c, h => by simp [mapFind] at h
  | (k', v) :: rest, k, c, h => by
    by_cases hlt : k < k'
    · simp [mapFind, hlt] at h
    · by_cases heq : k = k'
      · simp [mapFind, hlt, heq] at h
        simp [mapIndex, hlt, heq, h]
      · simp only [mapFind, if_neg hlt, if_neg heq] at h
        simp [mapIndex, hlt, heq, mapIndex_found h]

/-- Indexing preserves every binding that was already present, whether or
not the indexed key was. -/
theorem mapFind_mapIndex_preserve : ∀ {reg : RegMap} {k j : Nat} {c : ptyChan},
    mapFind reg j = some c → mapFind (mapIndex k reg).2 j = some c
  | [], k, j, c, h => by simp [mapFind] at h
  | (k', v) :: rest, k, j, c, h => by
    have hjk' : ¬ j < k' := by
      intro hj; simp [mapFind, hj] at h
    rcases lt_trichotomy k k' with hlt | heq | hgt
    · have hjk : ¬ j < k := by omega
      have hjne : j ≠ k := by omega
      by_cases hje : j = k'
      · simp only [mapFind, if_neg hjk', if_pos hje] at h
        have h1 : ¬ k' < k := by omega
        have h2 : k' ≠ k := by omega
        simp [mapIndex, hlt, mapFind, hje, h1, h2, h]
      · simp only [mapFind, if_neg hjk', if_neg hje] at h
        simp [mapIndex, hlt, mapFind, hjk, hjne, hjk', hje, h]
    · subst heq
      simpa [mapIndex] using h
    · have hk : ¬ k < k' := by omega
      have hkne : k ≠ k' := by omega
      by_cases hjeq : j = k'
      · simp only [mapFind, if_neg hjk', if_pos hjeq] at h
        simp [mapIndex, hk, hkne, mapFind, hjk', hjeq, h]
      · simp only [mapFind, if_neg hjk', if_neg hjeq] at h
        simp [mapIndex, hk, hkne, mapFind, hjk', hjeq,
          mapFind_mapIndex_preserve (k := k) h]

/-- Indexing a missing key adds exactly that key to the key set. -/
theorem mapKeys_mapIndex_not_found : ∀ {reg : RegMap} {k : Nat},
    mapFind reg k = none → ∀ j, j ∈ mapKeys (mapIndex k reg).2 ↔ j = k ∨ j ∈ mapKeys reg
  | [], k, _, j => by simp [mapIndex, mapKeys]
  | (k', v) :: rest, k, h, j => by
    rcases lt_trichotomy k k' with hlt | heq | hgt
    · simp only [mapIndex, if_pos hlt, mapKeys, List.map_cons, List.mem_cons]
    · subst heq
      simp [mapFind] at h
    · have hk : ¬ k < k' := by omega
      have hkne : k ≠ k' := by omega
      have h' : mapFind rest k = none := by
        simpa [mapFind, hk, hkne] using h
      simp only [mapIndex, if_neg hk, if_neg hkne, mapKeys, List.map_cons,
        List.mem_cons]
      have := mapKeys_mapIndex_not_found h' j
      simp only [mapKeys] at this
      tauto

/-- A second `emplace` of the same key is a no-op. -/
theorem mapEmplace_mapEmplace_self (k : Nat) (v w : ptyChan) :
    ∀ m : RegMap, mapEmplace k w (mapEmplace k v m) = mapEmplace k v m
  | [] => by simp [mapEmplace]
  | (k', v') :: rest => by
    rcases lt_trichotomy k k' with hlt | heq | hgt
    · simp [mapEmplace, hlt, lt_irrefl]
    · subst heq
      simp [mapEmplace]
    · have hk : ¬ k < k' := by omega
      have hkne : k ≠ k' := by omega
      simp [mapEmplace, hk, hkne, mapEmplace_mapEmplace_self k v w rest]

/-- Membership in the key set after an `emplace`. -/
theorem mem_mapKeys_mapEmplace (k : Nat) (v : ptyChan) :
    ∀ (m : RegMap) (j : Nat),
      j ∈ mapKeys (mapEmplace k v m) ↔ j = k ∨ j ∈ mapKeys m
  | [], j => by simp [mapEmplace, mapKeys]
  | (k', v') :: rest, j => by
    rcases lt_trichotomy k k' with hlt | heq | hgt
    · simp only [mapEmplace, if_pos hlt, mapKeys, List.map_cons, List.mem_cons]
    · subst heq
      simp only [mapEmplace, mapKeys]
      simp [List.mem_cons]
    · have hk : ¬ k < k' := by omega
      have hkne : k ≠ k' := by omega
      simp only [mapEmplace, if_neg hk, if_neg hkne, mapKeys, List.map_cons,
        List.mem_cons]
      have := mem_mapKeys_mapEmplace k v rest j
      simp only [mapKeys] at this
      tauto

/-- An `emplace` keeps the key list strictly sorted. -/
theorem sorted_mapEmplace (k : Nat) (v : ptyChan) :
    ∀ m : RegMap, List.Sorted (· < ·) (mapKeys m) →
      List.Sorted (· < ·) (mapKeys (mapEmplace k v m))
  | [], _ => by simp [mapEmplace, mapKeys]
  | (k', v') :: rest, h => by
    rw [mapKeys, List.map_cons, List.sorted_cons] at h
    obtain ⟨hall, hrest⟩ := h
    rcases lt_trichotomy k k' with hlt | heq | hgt
    · simp only [mapEmplace, if_pos hlt, mapKeys, List.map_cons]
      rw [List.sorted_cons]
      refine ⟨?_, ?_⟩
      · intro b hb
        rcases List.mem_cons.mp hb with hb | hb
        · omega
        · have := hall b hb; omega
      · rw [List.sorted_cons]; exact ⟨hall, hrest⟩
    · subst heq
      have hm : mapEmplace k v ((k, v') :: rest) = (k, v') :: rest := by
        simp [mapEmplace]
      rw [hm, mapKeys, List.map_cons, List.sorted_cons]
      exact ⟨hall, hrest⟩
    · have hk : ¬ k < k' := by omega
      have hkne : k ≠ k' := by omega
      simp only [mapEmplace, if_neg hk, if_neg hkne, mapKeys, List.map_cons]
      rw [List.sorted_cons]
      refine ⟨?_, sorted_mapEmplace k v rest hrest⟩
      intro b hb
      rcases (mem_mapKeys_mapEmplace k v rest b).mp hb with hb | hb
      · omega
      · exact hall b hb

/-- The registry built by the option loop has strictly sorted keys. -/
theorem parseChans_sorted : ∀ {specs : List (Int × String)} {m res : RegMap},
    List.Sorted (· < ·) (mapKeys m) → parseChans specs m = some res →
      List.Sorted (· < ·) (mapKeys res)
  | [], m, res, hm, h => by
    simp only [parseChans, Option.some.injEq] at h
    exact h ▸ hm
  | (n, link) :: rest, m, res, hm, h => by
    by_cases hbad : n > (cMaxChannelId : Int) ∨ n < 0
    · simp [parseChans, hbad] at h
    · simp only [parseChans, if_neg hbad] at h
      exact parseChans_sorted (sorted_mapEmplace _ _ _ hm) h

/-- Concatenation of egress outputs is associative. -/
theorem EgressOut.append_assoc (a b c : EgressOut) :
    (a.append b).append c = a.append (b.append c) := by
  simp [EgressOut.append]

/-- Egress passes distribute over registry concatenation. -/
theorem egressPass_append (accept : Nat → Nat) (pend : Int → List Nat) :
    ∀ xs ys : RegMap,
      egressPass accept pend (xs ++ ys) =
        (egressPass accept pend xs).append (egressPass accept pend ys)
  | [], ys => by simp [egressPass, EgressOut.append]
  | (cid, chan) :: xs, ys => by
    show (egressStep accept pend cid chan).append (egressPass accept pend (xs ++ ys))
        = ((egressStep accept pend cid chan).append
            (egressPass accept pend xs)).append (egressPass accept pend ys)
    rw [egressPass_append accept pend xs ys, EgressOut.append_assoc]

/-- The channel ids of the frames emitted in one pass form a sublist of the
registry's key list. -/
theorem egressPass_frames_sublist (accept : Nat → Nat) (pend : Int → List Nat) :
    ∀ reg : RegMap,
      ((egressPass accept pend reg).frames.map (fun f => f.1)).Sublist (mapKeys reg)
  | [] => by simp [egressPass, mapKeys]
  | (cid, chan) :: rest => by
    have ih := egressPass_frames_sublist accept pend rest
    simp only [egressPass, EgressOut.append, List.map_append, mapKeys, List.map_cons]
    by_cases h : min (pend chan.pty).length cMaxDataSize < 1
    · simp only [egressStep, if_pos h, List.map_nil, List.nil_append]
      exact ih.cons cid
    · simp only [egressStep, if_neg h, List.map_cons, List.map_nil,
        List.singleton_append]
      exact ih.cons₂ cid

/-! Claim C1: codec round trip. -/

/-- Claim C1: for every channel id in 0–255 and every payload of length at
most `cMaxDataSize`, decoding the bytes produced by encoding yields back
exactly the same channel id and payload (with nothing left over). -/
theorem decode_encode_roundtrip (cid : Nat) (payload : List Nat)
    (hcid : cid ≤ cMaxChannelId) (hlen : payload.length ≤ cMaxDataSize) :
    decodeFrame (encodeFrame cid payload) = some (cid, payload, []) := by
  have hlt : payload.length < 65536 := by
    have : cMaxDataSize = 1000 := rfl
    omega
  have hb : (((payload.length >>> 8) &&& 255) &&& 255) <<< 8
      + ((payload.length &&& 255) &&& 255) = payload.length := by
    simp only [land255_eq_mod, Nat.shiftLeft_eq, Nat.shiftRight_eq_div_pow]
    norm_num
    omega
  simp only [encodeFrame, decodeFrame, hb, le_refl, if_pos, List.take_length,
    List.drop_length]

/-- Concrete instance of claim C1 at channel 7 with payload `[3, 1, 4]`. -/
theorem decode_encode_roundtrip_witness :
    7 ≤ cMaxChannelId ∧ ([3, 1, 4] : List Nat).length ≤ cMaxDataSize ∧
      decodeFrame (encodeFrame 7 [3, 1, 4]) = some (7, [3, 1, 4], []) :=
  ⟨by decide, by decide, decode_encode_roundtrip 7 [3, 1, 4] (by decide) (by decide)⟩

/-- Indexing a missing key yields the value-initialized channel. -/
theorem mapIndex_not_found_fst : ∀ {reg : RegMap} {k : Nat},
    mapFind reg k = none → (mapIndex k reg).1 = defaultChan
  | [], _, _ => rfl
  | (k', v) :: rest, k, h => by
    rcases lt_trichotomy k k' with hlt | heq | hgt
    · simp [mapIndex, hlt]
    · subst heq
      simp [mapFind] at h
    · have hk : ¬ k < k' := by omega
      have hkne : k ≠ k' := by omega
      have h' : mapFind rest k = none := by simpa [mapFind, hk, hkne] using h
      simp [mapIndex, hk, hkne, mapIndex_not_found_fst h']

/-- Inversion of a successful ingress iteration: the stream begins with a
header, the new registry is the indexed one, and the writes are the declared
number of payload bytes sent to the resolved descriptor. -/
theorem readFrameStep_inv {reg : RegMap} {stream : List Nat} {reg' : RegMap}
    {rest : List Nat} {ws : List (Nat × Int × Nat)}
    (h : readFrameStep reg stream = some (reg', rest, ws)) :
    ∃ cid b1 b2 rest0, stream = cid :: b1 :: b2 :: rest0 ∧
      reg' = (mapIndex cid reg).2 ∧
      ws = (rest0.take ((b1 &&& 255) <<< 8 + (b2 &&& 255))).map
        (fun b => (cid, (mapIndex cid reg).1.pty, b)) := by
  match stream with
  | [] => simp [readFrameStep] at h
  | [cid] => simp [readFrameStep] at h
  | [cid, b1] => simp [readFrameStep] at h
  | cid :: b1 :: b2 :: rest0 =>
    by_cases hc : ((b1 &&& 255) <<< 8 + (b2 &&& 255)) ≤ rest0.length
    · simp only [readFrameStep, if_pos hc, Option.some.injEq, Prod.mk.injEq] at h
      exact ⟨cid, b1, b2, rest0, rfl, h.1.symm, h.2.2.symm⟩
    · simp [readFrameStep, hc] at h

/-! Claim C2: immutability of the channel registry. -/

/-- Claim C2 counterexample: with only channel 10 registered, receiving a
frame for channel 99 inserts a new entry — the key set grows from `[10]` to
`[10, 99]`, so the registry is structurally mutated by the Ingress loop. -/
theorem ingress_inserts_unregistered_key :
    (readFrameStep [(10, ⟨10, 5, "", ""⟩)] [99, 0, 1, 42]).map (fun r => mapKeys r.1)
        = some [10, 99] ∧ ([10, 99] : List Nat) ≠ [10] :=
  ⟨rfl, by decide⟩

/-- Claim C2 (amended): processing a received frame leaves the registry
unchanged when the frame's channel id is registered; when it is not,
`sVirtualPorts[cid]` inserts a value-initialized entry, so the key set
gains exactly that channel id. -/
theorem ingress_registry_mutation (reg : RegMap) (cid b1 b2 : Nat) (rest : List Nat)
    (hav : (b1 &&& 255) <<< 8 + (b2 &&& 255) ≤ rest.length) :
    ∃ reg' tail ws, readFrameStep reg (cid :: b1 :: b2 :: rest) = some (reg', tail, ws) ∧
      ((mapFind reg cid).isSome → reg' = reg) ∧
      (mapFind reg cid = none →
        ∀ j, j ∈ mapKeys reg' ↔ j = cid ∨ j ∈ mapKeys reg) := by
  refine ⟨(mapIndex cid reg).2, rest.drop ((b1 &&& 255) <<< 8 + (b2 &&& 255)),
    (rest.take ((b1 &&& 255) <<< 8 + (b2 &&& 255))).map
      (fun b => (cid, (mapIndex cid reg).1.pty, b)), ?_, ?_, ?_⟩
  · simp [readFrameStep, if_pos hav]
  · intro hs
    obtain ⟨c, hc⟩ := Option.isSome_iff_exists.mp hs
    rw [mapIndex_found hc]
  · intro hn j
    exact mapKeys_mapIndex_not_found hn j

/-- Concrete instance of the amended claim C2 on an empty registry. -/
theorem ingress_registry_mutation_witness :
    (0 &&& 255) <<< 8 + (0 &&& 255) ≤ ([] : List Nat).length ∧
      (∃ reg' tail ws, readFrameStep [] (5 :: 0 :: 0 :: []) = some (reg', tail, ws) ∧
        ((mapFind [] 5).isSome → reg' = []) ∧
        (mapFind [] 5 = none → ∀ j, j ∈ mapKeys reg' ↔ j = 5 ∨ j ∈ mapKeys [])) :=
  ⟨by decide, ingress_registry_mutation [] 5 0 0 [] (by decide)⟩

/-! Claim C3: handling of unroutable frames. -/

/-- Claim C3 counterexample: with only channel 10 registered, the payload of
a frame for unregistered channel 99 is not discarded — its byte is written
to descriptor 0, the `pty` of the value-initialized entry that
`sVirtualPorts[99]` inserts. -/
theorem unroutable_payload_not_discarded :
    (readFrameStep [(10, ⟨10, 5, "", ""⟩)] [99, 0, 1, 42]).map (fun r => r.2.2)
        = some [(99, 0, 42)] ∧ ([(99, 0, 42)] : List (Nat × Int × Nat)) ≠ [] :=
  ⟨rfl, by decide⟩

/-- Claim C3 (amended): a frame whose channel id is not registered consumes
exactly the declared number of payload bytes from the transport stream, so a
valid frame that follows is parsed and delivered correctly (no
desynchronization); however the payload is not discarded and nothing is
logged — each payload byte is written to descriptor 0, the `pty` of the
value-initialized registry entry that `sVirtualPorts[cid]` inserts. -/
theorem unroutable_then_valid (reg : RegMap) (cidU cidV bU1 bU2 bV1 bV2 : Nat)
    (pU pV tail : List Nat) (c : ptyChan)
    (hmiss : mapFind reg cidU = none)
    (hfind : mapFind reg cidV = some c)
    (hU : pU.length = (bU1 &&& 255) <<< 8 + (bU2 &&& 255))
    (hV : pV.length = (bV1 &&& 255) <<< 8 + (bV2 &&& 255)) :
    (readRun 2 reg (cidU :: bU1 :: bU2 :: (pU ++ cidV :: bV1 :: bV2 :: (pV ++ tail)))).2
      = pU.map (fun b => (cidU, (0 : Int), b))
        ++ pV.map (fun b => (cidV, c.pty, b)) := by
  have h1 : readFrameStep reg
      (cidU :: bU1 :: bU2 :: (pU ++ cidV :: bV1 :: bV2 :: (pV ++ tail)))
      = some ((mapIndex cidU reg).2, cidV :: bV1 :: bV2 :: (pV ++ tail),
          pU.map (fun b => (cidU, (0 : Int), b))) := by
    have hle : (bU1 &&& 255) <<< 8 + (bU2 &&& 255)
        ≤ (pU ++ cidV :: bV1 :: bV2 :: (pV ++ tail)).length := by
      rw [List.length_append]; omega
    simp only [readFrameStep, if_pos hle, List.take_left' hU,
      List.drop_left' hU, mapIndex_not_found_fst hmiss, defaultChan]
  have hfind1 : mapFind (mapIndex cidU reg).2 cidV = some c :=
    mapFind_mapIndex_preserve hfind
  have h2 : readFrameStep (mapIndex cidU reg).2 (cidV :: bV1 :: bV2 :: (pV ++ tail))
      = some ((mapIndex cidU reg).2, tail, pV.map (fun b => (cidV, c.pty, b))) := by
    have hle : (bV1 &&& 255) <<< 8 + (bV2 &&& 255) ≤ (pV ++ tail).length := by
      rw [List.length_append]; omega
    simp only [readFrameStep, if_pos hle, List.take_left' hV,
      List.drop_left' hV, mapIndex_found hfind1]
  simp [readRun, h1, h2]

/-- Concrete instance of the amended claim C3: an unroutable frame for
channel 99 followed by a valid frame for channel 10. -/
theorem unroutable_then_valid_witness :
    mapFind [(10, (⟨10, 5, "", ""⟩ : ptyChan))] 99 = none ∧
      mapFind [(10, (⟨10, 5, "", ""⟩ : ptyChan))] 10 = some ⟨10, 5, "", ""⟩ ∧
      ([7] : List Nat).length = (0 &&& 255) <<< 8 + (1 &&& 255) ∧
      ([8] : List Nat).length = (0 &&& 255) <<< 8 + (1 &&& 255) ∧
      (readRun 2 [(10, (⟨10, 5, "", ""⟩ : ptyChan))]
          (99 :: 0 :: 1 :: ([7] ++ 10 :: 0 :: 1 :: ([8] ++ [])))).2
        = [7].map (fun b => (99, (0 : Int), b))
          ++ [8].map (fun b => (10, (⟨10, 5, "", ""⟩ : ptyChan).pty, b)) :=
  ⟨by decide, by decide, by decide, by decide,
    unroutable_then_valid [(10, ⟨10, 5, "", ""⟩)] 99 10 0 1 0 1 [7] [8] []
      ⟨10, 5, "", ""⟩ (by decide) (by decide) (by decide) (by decide)⟩

/-! Claim C5: exact delivery on registered channels. -/

/-- Claim C5: a frame received on a registered channel with declared length
within the buffer capacity is delivered to the resolved endpoint as exactly
the declared number of bytes, equal to the frame's payload bytes and in the
same order — no padding, no truncation — and the registry is untouched. -/
theorem ingress_delivery_exact (reg : RegMap) (cid b1 b2 : Nat)
    (payload tail : List Nat) (c : ptyChan)
    (hfind : mapFind reg cid = some c)
    (hlen : payload.length = (b1 &&& 255) <<< 8 + (b2 &&& 255))
    (hcap : payload.length ≤ cMaxDataSize) :
    readFrameStep reg (cid :: b1 :: b2 :: (payload ++ tail)) =
      some (reg, tail, payload.map (fun b => (cid, c.pty, b))) := by
  have hle : (b1 &&& 255) <<< 8 + (b2 &&& 255) ≤ (payload ++ tail).length := by
    rw [List.length_append]; omega
  simp only [readFrameStep, if_pos hle, List.take_left' hlen,
    List.drop_left' hlen, mapIndex_found hfind]

/-- Concrete instance of claim C5: a two-byte frame for registered
channel 10 is delivered byte for byte to descriptor 5. -/
theorem ingress_delivery_exact_witness :
    mapFind [(10, (⟨10, 5, "", ""⟩ : ptyChan))] 10 = some ⟨10, 5, "", ""⟩ ∧
      ([1, 2] : List Nat).length = (0 &&& 255) <<< 8 + (2 &&& 255) ∧
      ([1, 2] : List Nat).length ≤ cMaxDataSize ∧
      readFrameStep [(10, (⟨10, 5, "", ""⟩ : ptyChan))] (10 :: 0 :: 2 :: ([1, 2] ++ [9])) =
        some ([(10, ⟨10, 5, "", ""⟩)], [9],
          [1, 2].map (fun b => (10, (⟨10, 5, "", ""⟩ : ptyChan).pty, b))) :=
  ⟨by decide, by decide, by decide,
    ingress_delivery_exact [(10, ⟨10, 5, "", ""⟩)] 10 0 2 [1, 2] [9]
      ⟨10, 5, "", ""⟩ (by decide) (by decide) (by decide)⟩

/-! Claim C4: per-channel isolation. -/

/-- Claim C4: for two registered channels `A` and `B` with distinct endpoint
descriptors and any stream of arriving frames, every byte written while
processing a frame whose channel id is `A` goes to `A`'s descriptor and
never to `B`'s. -/
theorem channel_isolation : ∀ (fuel : Nat) (reg : RegMap) (stream : List Nat)
    (A B : Nat) (cA cB : ptyChan),
    mapFind reg A = some cA → mapFind reg B = some cB → cA.pty ≠ cB.pty →
    ∀ w ∈ (readRun fuel reg stream).2, w.1 = A → w.2.1 = cA.pty ∧ w.2.1 ≠ cB.pty
  | 0, reg, stream, A, B, cA, cB, hA, hB, hne, w, hw, hwA => by
    simp [readRun] at hw
  | fuel + 1, reg, stream, A, B, cA, cB, hA, hB, hne, w, hw, hwA => by
    match hstep : readFrameStep reg stream with
    | none => simp [readRun, hstep] at hw
    | some (reg', rest, ws) =>
      simp only [readRun, hstep, List.mem_append] at hw
      obtain ⟨cid, b1, b2, rest0, hs, hreg', hws⟩ := readFrameStep_inv hstep
      rcases hw with hw | hw
      · subst hws
        obtain ⟨b, hb, hwb⟩ := List.mem_map.mp hw
        subst hwb
        simp only at hwA
        subst hwA
        rw [mapIndex_found hA]
        exact ⟨rfl, hne⟩
      · have hA' : mapFind reg' A = some cA := hreg' ▸ mapFind_mapIndex_preserve hA
        have hB' : mapFind reg' B = some cB := hreg' ▸ mapFind_mapIndex_preserve hB
        exact channel_isolation fuel reg' rest A B cA cB hA' hB' hne w hw hwA

/-- Concrete instance of claim C4: channels 10 (descriptor 5) and 20
(descriptor 6), one frame for each. -/
theorem channel_isolation_witness :
    mapFind [(10, (⟨10, 5, "", ""⟩ : ptyChan)), (20, (⟨20, 6, "", ""⟩ : ptyChan))] 10
        = some ⟨10, 5, "", ""⟩ ∧
      mapFind [(10, (⟨10, 5, "", ""⟩ : ptyChan)), (20, (⟨20, 6, "", ""⟩ : ptyChan))] 20
        = some ⟨20, 6, "", ""⟩ ∧
      (⟨10, 5, "", ""⟩ : ptyChan).pty ≠ (⟨20, 6, "", ""⟩ : ptyChan).pty ∧
      ∀ w ∈ (readRun 2 [(10, (⟨10, 5, "", ""⟩ : ptyChan)), (20, (⟨20, 6, "", ""⟩ : ptyChan))]
          [10, 0, 1, 42, 20, 0, 1, 43]).2,
        w.1 = 10 → w.2.1 = (⟨10, 5, "", ""⟩ : ptyChan).pty
          ∧ w.2.1 ≠ (⟨20, 6, "", ""⟩ : ptyChan).pty :=
  ⟨by decide, by decide, by decide,
    channel_isolation 2 [(10, ⟨10, 5, "", ""⟩), (20, ⟨20, 6, "", ""⟩)]
      [10, 0, 1, 42, 20, 0, 1, 43] 10 20 ⟨10, 5, "", ""⟩ ⟨20, 6, "", ""⟩
      (by decide) (by decide) (by decide)⟩

/-! Claim C6: egress iteration order. -/

/-- Claim C6 counterexample: registering channel 20 before channel 10 still
polls channel 10 first — `std::map` iterates in ascending key order, so the
per-pass order is not the insertion order `[20, 10]` of the register
calls. -/
theorem egress_order_not_insertion_order :
    (parseChans [(20, ""), (10, "")] []).map
        (fun reg => (egressPass (fun _ => cMaxDataSize) (fun _ => [7]) reg).frames.map
          (fun f => f.1))
      = some [10, 20] ∧ ([10, 20] : List Nat) ≠ [20, 10] :=
  ⟨rfl, by decide⟩

/-- Claim C6 (amended): the per-pass iteration visits channels in ascending
channel-id order — the `std::map` key order — and this fixed order is the
same on every pass (the emitted frames always follow the registry's key
list); it coincides with configuration order only when the channels are
configured in ascending id order. -/
theorem egress_order_sorted (specs : List (Int × String)) (reg : RegMap)
    (hreg : parseChans specs [] = some reg)
    (accept : Nat → Nat) (pend : Int → List Nat) :
    List.Sorted (· < ·) (mapKeys reg) ∧
      ((egressPass accept pend reg).frames.map (fun f => f.1)).Sublist (mapKeys reg) ∧
      List.Sorted (· < ·) ((egressPass accept pend reg).frames.map (fun f => f.1)) := by
  have hs : List.Sorted (· < ·) (mapKeys reg) :=
    parseChans_sorted (by simp [mapKeys]) hreg
  have hsub := egressPass_frames_sublist accept pend reg
  exact ⟨hs, hsub, List.Pairwise.sublist hsub hs⟩

/-- Concrete instance of the amended claim C6 with channels configured in
the order 20, 10. -/
theorem egress_order_sorted_witness :
    parseChans [(20, ""), (10, "")] []
        = some [(10, ⟨10, -1, "", ""⟩), (20, ⟨20, -1, "", ""⟩)] ∧
      (List.Sorted (· < ·) (mapKeys [(10, ⟨10, -1, "", ""⟩), (20, ⟨20, -1, "", ""⟩)]) ∧
        ((egressPass (fun _ => cMaxDataSize) (fun _ => [7])
            [(10, ⟨10, -1, "", ""⟩), (20, ⟨20, -1, "", ""⟩)]).frames.map
          (fun f => f.1)).Sublist
            (mapKeys [(10, ⟨10, -1, "", ""⟩), (20, ⟨20, -1, "", ""⟩)]) ∧
        List.Sorted (· < ·)
          ((egressPass (fun _ => cMaxDataSize) (fun _ => [7])
            [(10, ⟨10, -1, "", ""⟩), (20, ⟨20, -1, "", ""⟩)]).frames.map
              (fun f => f.1))) :=
  ⟨rfl, egress_order_sorted [(20, ""), (10, "")]
    [(10, ⟨10, -1, "", ""⟩), (20, ⟨20, -1, "", ""⟩)] rfl
    (fun _ => cMaxDataSize) (fun _ => [7])⟩

/-! Claim C7: duplicate channel registration. -/

/-- Claim C7 counterexample: specifying channel 10 twice does not make
startup fail — `emplace` silently keeps the first registration, the second
link path is dropped, and `setupChans` succeeds, so the process reaches the
engine threads instead of exiting with a failure status. -/
theorem duplicate_channel_no_failure :
    setupChans [(10, "/tmp/a"), (10, "/tmp/b")] = some [(10, ⟨10, -1, "/tmp/a", ""⟩)] ∧
      (setupChans [(10, "/tmp/a"), (10, "/tmp/b")]).isSome = true :=
  ⟨rfl, rfl⟩

/-- Claim C7 (amended): registering a channel id that is already present is
silently ignored — the configuration behaves exactly as if the duplicate
option had not been given (the first registration wins), and startup does
not fail because of the duplicate. -/
theorem duplicate_channel_ignored (n : Int) (l1 l2 : String) (rest : List (Int × String)) :
    (∀ m : RegMap,
      parseChans ((n, l1) :: (n, l2) :: rest) m = parseChans ((n, l1) :: rest) m) ∧
      setupChans ((n, l1) :: (n, l2) :: rest) = setupChans ((n, l1) :: rest) := by
  have key : ∀ m : RegMap,
      parseChans ((n, l1) :: (n, l2) :: rest) m = parseChans ((n, l1) :: rest) m := by
    intro m
    by_cases hbad : n > (cMaxChannelId : Int) ∨ n < 0
    · simp [parseChans, hbad]
    · simp only [parseChans, if_neg hbad]
      rw [mapEmplace_mapEmplace_self]
  exact ⟨key, by simp only [setupChans, key []]⟩

/-! Claim C8: single-frame egress pass. -/

/-- An egress pass over endpoints that all read nothing emits nothing. -/
theorem egressPass_all_empty (accept : Nat → Nat) (pend : Int → List Nat) :
    ∀ reg : RegMap, (∀ p ∈ reg, pend p.2.pty = []) →
      egressPass accept pend reg = ⟨[], [], []⟩
  | [], _ => rfl
  | (cid, chan) :: rest, h => by
    have hc : pend chan.pty = [] := h (cid, chan) (List.mem_cons_self _ _)
    have hrest := egressPass_all_empty accept pend rest
      (fun p hp => h p (List.mem_cons_of_mem _ hp))
    simp [egressPass, egressStep, hc, hrest, EgressOut.append, cMaxDataSize]

/-- Claim C8: in any polling pass over any registry in which exactly one
registered endpoint, with channel id `C`, yields `n > 0` bytes and every
other endpoint yields nothing, and the transport accepts the whole payload,
exactly one frame goes to the physical transport: the byte `C`, the two
bytes of `n` most-significant first, then the `n` payload bytes, with no
error — e.g. channel 10 with 5 bytes produces `0x0A 0x00 0x05` then the 5
bytes. -/
theorem egress_single_frame (accept : Nat → Nat) (pend : Int → List Nat)
    (pre post : RegMap) (C n : Nat) (chan : ptyChan)
    (hn : n = min (pend chan.pty).length cMaxDataSize)
    (hpos : 0 < n) (hacc : n ≤ accept C)
    (hothers : ∀ p ∈ pre ++ post, pend p.2.pty = []) :
    egressPass accept pend (pre ++ (C, chan) :: post) =
      ⟨C :: ((n >>> 8) &&& 255) :: (n &&& 255) :: (pend chan.pty).take n,
        [(C, n, (pend chan.pty).take n)], []⟩ := by
  have hpre := egressPass_all_empty accept pend pre
    (fun p hp => hothers p (List.mem_append_left _ hp))
  have hpost := egressPass_all_empty accept pend post
    (fun p hp => hothers p (List.mem_append_right _ hp))
  have hstep : egressStep accept pend C chan =
      ⟨C :: ((n >>> 8) &&& 255) :: (n &&& 255) :: (pend chan.pty).take n,
        [(C, n, (pend chan.pty).take n)], []⟩ := by
    simp only [egressStep, ← hn]
    rw [if_neg (by omega : ¬ n < 1)]
    have hacc' : min (accept C) n = n := min_eq_right hacc
    rw [hacc']
    simp [List.take_take]
  rw [egressPass_append, hpre,
    show egressPass accept pend ((C, chan) :: post)
      = (egressStep accept pend C chan).append (egressPass accept pend post) from rfl,
    hstep, hpost]
  simp [EgressOut.append]

set_option maxRecDepth 8000 in
/-- Concrete instance of claim C8 with channels 10 and 20 registered and 258
bytes pending on channel 10's endpoint only, so the most-significant length
byte is nonzero: the single emitted frame is `0x0A 0x01 0x02` followed by
the 258 payload bytes. -/
theorem egress_single_frame_witness :
    (258 : Nat) = min ((fun fd : Int => if fd = 5 then List.replicate 258 7 else [])
        (⟨10, 5, "", ""⟩ : ptyChan).pty).length cMaxDataSize ∧
      (0 : Nat) < 258 ∧ 258 ≤ (fun _ : Nat => cMaxDataSize) 10 ∧
      (∀ p ∈ ([] : RegMap) ++ [(20, (⟨20, 6, "", ""⟩ : ptyChan))],
        (fun fd : Int => if fd = 5 then List.replicate 258 7 else []) p.2.pty = []) ∧
      egressPass (fun _ => cMaxDataSize)
          (fun fd => if fd = 5 then List.replicate 258 7 else [])
          (([] : RegMap) ++ (10, ⟨10, 5, "", ""⟩) :: [(20, ⟨20, 6, "", ""⟩)]) =
        ⟨10 :: 1 :: 2 :: List.replicate 258 7, [(10, 258, List.replicate 258 7)], []⟩ :=
  ⟨by decide, by decide, by decide, by decide,
    egress_single_frame (fun _ => cMaxDataSize)
      (fun fd => if fd = 5 then List.replicate 258 7 else [])
      [] [(20, ⟨20, 6, "", ""⟩)] 10 258 ⟨10, 5, "", ""⟩
      (by decide) (by decide) (by decide) (by decide)⟩

/-! Claim C9: short writes are logged, not retried. -/

/-- Claim C9: when the physical write of a frame's payload accepts fewer
bytes than requested, the egress pass logs exactly one error for it, writes
the frame once (truncated — no retry), and still processes every endpoint
after it in the same pass; nothing else in the engine state changes. -/
theorem short_write_logged_not_retried (accept : Nat → Nat) (pend : Int → List Nat)
    (pre post : RegMap) (cid n : Nat) (chan : ptyChan)
    (hn : n = min (pend chan.pty).length cMaxDataSize)
    (hpos : 0 < n) (hshort : accept cid < n) :
    egressPass accept pend (pre ++ (cid, chan) :: post) =
      (egressPass accept pend pre).append
        ((⟨cid :: ((n >>> 8) &&& 255) :: (n &&& 255) ::
              ((pend chan.pty).take n).take (accept cid),
           [(cid, n, ((pend chan.pty).take n).take (accept cid))],
           [(cid, n, accept cid)]⟩ : EgressOut).append
          (egressPass accept pend post)) := by
  have hstep : egressStep accept pend cid chan =
      ⟨cid :: ((n >>> 8) &&& 255) :: (n &&& 255) ::
          ((pend chan.pty).take n).take (accept cid),
        [(cid, n, ((pend chan.pty).take n).take (accept cid))],
        [(cid, n, accept cid)]⟩ := by
    simp only [egressStep, ← hn]
    rw [if_neg (by omega : ¬ n < 1)]
    have hacc : min (accept cid) n = accept cid := min_eq_left (le_of_lt hshort)
    rw [hacc, if_pos (Nat.ne_of_lt hshort)]
  rw [egressPass_append]
  rw [show egressPass accept pend ((cid, chan) :: post)
      = (egressStep accept pend cid chan).append (egressPass accept pend post) from rfl]
  rw [hstep]

/-- Concrete instance of claim C9: the transport accepts only 1 of 3 payload
bytes for channel 7; the error is logged and channel 9 is still served. -/
theorem short_write_logged_not_retried_witness :
    (3 : Nat) = min ((fun _ : Int => [1, 2, 3]) (0 : Int)).length cMaxDataSize ∧
      (0 : Nat) < 3 ∧ (fun _ : Nat => 1) 7 < 3 ∧
      egressPass (fun _ => 1) (fun _ => [1, 2, 3])
          ([] ++ (7, ⟨7, 0, "", ""⟩) :: [(9, ⟨9, 0, "", ""⟩)]) =
        (egressPass (fun _ => 1) (fun _ => [1, 2, 3]) []).append
          ((⟨7 :: ((3 >>> 8) &&& 255) :: (3 &&& 255) ::
                (([1, 2, 3].take 3).take 1),
             [(7, 3, ([1, 2, 3].take 3).take 1)],
             [(7, 3, 1)]⟩ : EgressOut).append
            (egressPass (fun _ => 1) (fun _ => [1, 2, 3]) [(9, ⟨9, 0, "", ""⟩)])) :=
  ⟨by decide, by decide, by decide,
    short_write_logged_not_retried (fun _ => 1) (fun _ => [1, 2, 3])
      [] [(9, ⟨9, 0, "", ""⟩)] 7 3 ⟨7, 0, "", ""⟩ (by decide) (by decide) (by decide)⟩

/-! Claim C10: emitted frame lengths are between 1 and the maximum. -/

/-- Claim C10: every frame emitted by an egress pass has a declared payload
length `n` with `1 ≤ n ≤ cMaxDataSize`; in particular a zero-length frame
is never written, because an endpoint read returning fewer than 1 byte
produces no frame at all. -/
theorem egress_frame_length_bounds : ∀ (accept : Nat → Nat) (pend : Int → List Nat)
    (reg : RegMap) (f : Nat × Nat × List Nat),
    f ∈ (egressPass accept pend reg).frames → 1 ≤ f.2.1 ∧ f.2.1 ≤ cMaxDataSize
  | accept, pend, [], f, hf => by simp [egressPass] at hf
  | accept, pend, (cid, chan) :: rest, f, hf => by
    simp only [egressPass, EgressOut.append, List.mem_append] at hf
    rcases hf with hf | hf
    · by_cases h : min (pend chan.pty).length cMaxDataSize < 1
      · simp [egressStep, h] at hf
      · simp only [egressStep, if_neg h, List.mem_singleton] at hf
        subst hf
        exact ⟨not_lt.mp h, min_le_right _ _⟩
    · exact egress_frame_length_bounds accept pend rest f hf

/-- Concrete instance of claim C10 on a one-channel registry with one
pending byte. -/
theorem egress_frame_length_bounds_witness :
    ((10 : Nat), (1 : Nat), ([9] : List Nat)) ∈
        (egressPass (fun _ => cMaxDataSize) (fun _ => [9])
          [(10, ⟨10, 0, "", ""⟩)]).frames ∧
      1 ≤ ((10 : Nat), (1 : Nat), ([9] : List Nat)).2.1 ∧
        ((10 : Nat), (1 : Nat), ([9] : List Nat)).2.1 ≤ cMaxDataSize :=
  ⟨by decide,
    egress_frame_length_bounds (fun _ => cMaxDataSize) (fun _ => [9])
      [(10, ⟨10, 0, "", ""⟩)] (10, 1, [9]) (by decide)⟩

end SerialMux
